import Mathlib

/-!
# Verification of the journalism-blog backend core logic

Shallow embedding of the slug generation, ownership/authentication guards,
like toggling, and list/search/pagination query construction of the blog
backend (`src/models/Post.js`, `src/models/Like.js`, `src/middleware/auth.js`,
`src/controllers/postController.js`, `src/controllers/likeController.js`),
together with proofs about them.

Strings are modelled as `List Char`.  JavaScript's `toLowerCase` is modelled
by `Char.toLower` (ASCII case mapping), which agrees with it on every
character that can survive the `[^a-z0-9 -]` filter of the slug pipeline.
The SQL layer is modelled as in the specification's data model: each table is
a list of records, `SELECT ... WHERE` is `List.filter`/`List.find?`,
`ORDER BY` is `List.mergeSort`, and `LIMIT`/`OFFSET` are `take`/`drop`.
-/

set_option maxHeartbeats 1000000

/-! ## Slug generation (Post.generateSlug, src/models/Post.js lines 21-28) -/

/-- Characters kept by `.replace(/[^a-z0-9 -]/g, '')`: code points for
`a`-`z` (97-122), `0`-`9` (48-57), space (32) and hyphen (45). -/
def keepChar (c : Char) : Bool :=
  (97 ≤ c.toNat && c.toNat ≤ 122) || (48 ≤ c.toNat && c.toNat ≤ 57) ||
    c.toNat == 32 || c.toNat == 45

/-- The JavaScript whitespace class `\s` (also the class trimmed by
`String.prototype.trim`), restricted to the code points that matter here:
space, tab, LF, VT, FF, CR, NBSP, BOM.  Only the plain space (32) can ever
reach the `\s+` replacement of the slug pipeline, since every other
whitespace character is removed by the `[^a-z0-9 -]` filter first. -/
def isJsWhitespace (c : Char) : Bool :=
  c.toNat == 32 || c.toNat == 9 || c.toNat == 10 || c.toNat == 11 ||
    c.toNat == 12 || c.toNat == 13 || c.toNat == 160 || c.toNat == 65279

/-- Replace each maximal run of characters satisfying `p` by the single
character `r`, modelling a global regex replacement such as
`.replace(/\s+/g, '-')` or `.replace(/[-]+/g, '-')` (hyphen-run collapsing). -/
def collapseRuns (p : Char → Bool) (r : Char) : List Char → List Char
  | [] => []
  | [c] => if p c then [r] else [c]
  | c :: d :: cs =>
    if p c then
      if p d then collapseRuns p r (d :: cs)
      else r :: collapseRuns p r (d :: cs)
    else c :: collapseRuns p r (d :: cs)

/-- JavaScript `String.prototype.trim`: removes leading and trailing
whitespace.  `trim` takes no argument in JavaScript, so the `.trim('-')`
call in `Post.generateSlug` ignores the `'-'` and trims whitespace only. -/
def jsTrim (s : List Char) : List Char :=
  ((s.dropWhile isJsWhitespace).reverse.dropWhile isJsWhitespace).reverse

/-- `Post.generateSlug` (src/models/Post.js lines 21-28): lowercase, strip
characters outside `[a-z0-9 -]`, replace whitespace runs by `-`, collapse
`-` runs, then `.trim('-')` (which is JavaScript whitespace trim; the
argument is ignored). -/
def generateSlug (title : List Char) : List Char :=
  jsTrim (collapseRuns (fun c => c == '-') '-'
    (collapseRuns isJsWhitespace '-'
      ((title.map Char.toLower).filter keepChar)))

/-- Modelled from the spec: the slug transform as the specification words it
(section 4.4), with a genuine final trim of leading and trailing *hyphens*
(the step the source's `.trim('-')` was supposed to perform). -/
def generateSlugSpec (title : List Char) : List Char :=
  let s := collapseRuns (fun c => c == '-') '-'
    (collapseRuns isJsWhitespace '-'
      ((title.map Char.toLower).filter keepChar))
  ((s.dropWhile (fun c => c == '-')).reverse.dropWhile (fun c => c == '-')).reverse

/-- Characters that can occur in a slug produced by the pipeline:
`a`-`z`, `0`-`9`, `-`. -/
def isSlugChar (c : Char) : Bool :=
  (97 ≤ c.toNat && c.toNat ≤ 122) || (48 ≤ c.toNat && c.toNat ≤ 57) ||
    c.toNat == 45

theorem slugChar_keep {c : Char} (h : isSlugChar c = true) : keepChar c = true := by
  simp only [isSlugChar, keepChar, Bool.or_eq_true, Bool.and_eq_true,
    decide_eq_true_eq, beq_iff_eq] at h ⊢
  omega

theorem slugChar_not_ws {c : Char} (h : isSlugChar c = true) :
    isJsWhitespace c = false := by
  simp only [isSlugChar, Bool.or_eq_true, Bool.and_eq_true,
    decide_eq_true_eq, beq_iff_eq] at h
  simp only [isJsWhitespace, Bool.or_eq_false_iff, beq_eq_false_iff_ne, ne_eq]
  omega

theorem slugChar_toLower_fix {c : Char} (h : isSlugChar c = true) :
    Char.toLower c = c := by
  simp only [isSlugChar, Bool.or_eq_true, Bool.and_eq_true,
    decide_eq_true_eq, beq_iff_eq] at h
  unfold Char.toLower
  rw [if_neg]
  omega

/-- Every element of `collapseRuns p r l` is either the replacement `r` or an
element of `l` on which `p` is false. -/
theorem mem_collapseRuns {p : Char → Bool} {r : Char} :
    ∀ {l : List Char} {c : Char}, c ∈ collapseRuns p r l →
      c = r ∨ (c ∈ l ∧ p c = false)
  | [], _, h => by simp [collapseRuns] at h
  | [d], c, h => by
    cases hd : p d with
    | true => simp [collapseRuns, hd] at h; exact Or.inl h
    | false =>
      simp [collapseRuns, hd] at h
      subst h; exact Or.inr ⟨List.mem_singleton.mpr rfl, hd⟩
  | d :: e :: cs, c, h => by
    cases hd : p d with
    | true =>
      cases he : p e with
      | true =>
        simp only [collapseRuns, hd, he, if_true] at h
        rcases mem_collapseRuns h with h1 | ⟨hm, hp⟩
        · exact Or.inl h1
        · exact Or.inr ⟨List.mem_cons_of_mem _ hm, hp⟩
      | false =>
        simp only [collapseRuns, hd, he, Bool.false_eq_true, if_true, if_false,
          List.mem_cons] at h
        rcases h with h1 | h1
        · exact Or.inl h1
        · rcases mem_collapseRuns h1 with h2 | ⟨hm, hp⟩
          · exact Or.inl h2
          · exact Or.inr ⟨List.mem_cons_of_mem _ hm, hp⟩
    | false =>
      simp only [collapseRuns, hd, Bool.false_eq_true, if_false,
        List.mem_cons] at h
      rcases h with h1 | h1
      · subst h1; exact Or.inr ⟨List.mem_cons_self _ _, hd⟩
      · rcases mem_collapseRuns h1 with h2 | ⟨hm, hp⟩
        · exact Or.inl h2
        · exact Or.inr ⟨List.mem_cons_of_mem _ hm, hp⟩

/-- `collapseRuns` is the identity on lists with no character satisfying `p`. -/
theorem collapseRuns_id {p : Char → Bool} {r : Char} :
    ∀ {l : List Char}, (∀ c ∈ l, p c = false) → collapseRuns p r l = l
  | [], _ => rfl
  | [d], h => by simp [collapseRuns, h d (List.mem_singleton.mpr rfl)]
  | d :: e :: cs, h => by
    have hd := h d (List.mem_cons_self _ _)
    simp only [collapseRuns, hd, Bool.false_eq_true, if_false]
    rw [collapseRuns_id (fun c hc => h c (List.mem_cons_of_mem _ hc))]

/-- No two adjacent characters of the list both satisfy `p`. -/
def noAdj (p : Char → Bool) : List Char → Bool
  | [] => true
  | [_] => true
  | c :: d :: cs => !(p c && p d) && noAdj p (d :: cs)

/-- The output of `collapseRuns` never has two adjacent characters
satisfying `p`. -/
theorem noAdj_collapseRuns {p : Char → Bool} {r : Char} (hr : p r = true) :
    ∀ {l : List Char}, noAdj p (collapseRuns p r l) = true
  | [] => rfl
  | [d] => by cases hd : p d <;> simp [collapseRuns, hd, noAdj]
  | d :: e :: cs => by
    have ih : noAdj p (collapseRuns p r (e :: cs)) = true :=
      noAdj_collapseRuns hr (l := e :: cs)
    cases hd : p d with
    | true =>
      cases he : p e with
      | true => simpa [collapseRuns, hd, he] using ih
      | false =>
        simp only [collapseRuns, hd, he, Bool.false_eq_true, if_true, if_false]
        have hcons : collapseRuns p r (e :: cs) = e :: collapseRuns p r cs := by
          cases cs with
          | nil => simp [collapseRuns, he]
          | cons f fs => simp [collapseRuns, he]
        rw [hcons] at ih ⊢
        simp only [noAdj, Bool.and_eq_true, Bool.not_eq_true']
        exact ⟨by simp [he], ih⟩
    | false =>
      simp only [collapseRuns, hd, Bool.false_eq_true, if_false]
      rcases hcr : collapseRuns p r (e :: cs) with _ | ⟨f, fs⟩
      · simp [noAdj]
      · rw [hcr] at ih
        simp only [noAdj, Bool.and_eq_true, Bool.not_eq_true']
        exact ⟨by simp [hd], ih⟩

/-- Collapsing hyphen runs is the identity when the list has no two adjacent
hyphens (each run already has length one, and is rewritten to itself). -/
theorem collapseRuns_hyphen_id :
    ∀ {l : List Char}, noAdj (fun c => c == '-') l = true →
      collapseRuns (fun c => c == '-') '-' l = l
  | [], _ => rfl
  | [d], _ => by
    by_cases hd : d = '-'
    · simp [collapseRuns, hd]
    · simp [collapseRuns, hd]
  | d :: e :: cs, h => by
    simp only [noAdj, Bool.and_eq_true, Bool.not_eq_true'] at h
    obtain ⟨hde, htail⟩ := h
    by_cases hd : d = '-'
    · have he : (e == '-') = false := by
        subst hd; simpa using hde
      simp only [collapseRuns, hd, beq_self_eq_true, if_true, he,
        Bool.false_eq_true, if_false]
      rw [collapseRuns_hyphen_id htail]
    · have hd' : (d == '-') = false := by simpa using hd
      simp only [collapseRuns, hd', Bool.false_eq_true, if_false]
      rw [collapseRuns_hyphen_id htail]

theorem dropWhile_id {p : Char → Bool} {l : List Char}
    (h : ∀ c ∈ l, p c = false) : l.dropWhile p = l := by
  cases l with
  | nil => rfl
  | cons c cs =>
    rw [List.dropWhile_cons, if_neg]
    simp [h c (List.mem_cons_self _ _)]

theorem jsTrim_id {l : List Char} (h : ∀ c ∈ l, isJsWhitespace c = false) :
    jsTrim l = l := by
  unfold jsTrim
  rw [dropWhile_id h, dropWhile_id (fun c hc => h c (List.mem_reverse.mp hc)),
    List.reverse_reverse]

/-- The inner pipeline (before the final trim): lowercase, filter,
whitespace-collapse, hyphen-collapse. -/
def slugCore (title : List Char) : List Char :=
  collapseRuns (fun c => c == '-') '-'
    (collapseRuns isJsWhitespace '-'
      ((title.map Char.toLower).filter keepChar))

theorem mem_slugCore_isSlugChar {title : List Char} {c : Char}
    (h : c ∈ slugCore title) : isSlugChar c = true := by
  unfold slugCore at h
  rcases mem_collapseRuns h with h1 | ⟨h1, hnh⟩
  · subst h1; rfl
  · rcases mem_collapseRuns h1 with h2 | ⟨h2, hnw⟩
    · subst h2; rfl
    · have hk : keepChar c = true := List.of_mem_filter h2
      simp only [keepChar, Bool.or_eq_true, Bool.and_eq_true,
        decide_eq_true_eq, beq_iff_eq] at hk
      simp only [isJsWhitespace, Bool.or_eq_false_iff, beq_eq_false_iff_ne,
        ne_eq] at hnw
      simp only [isSlugChar, Bool.or_eq_true, Bool.and_eq_true,
        decide_eq_true_eq, beq_iff_eq]
      omega

/-- The final `.trim('-')` of the source is a no-op: its argument is ignored
and the intermediate value contains no whitespace, so
`generateSlug = slugCore`. -/
theorem generateSlug_eq_slugCore (title : List Char) :
    generateSlug title = slugCore title := by
  unfold generateSlug slugCore
  exact jsTrim_id fun c hc => slugChar_not_ws (mem_slugCore_isSlugChar hc)

theorem mem_generateSlug_isSlugChar {title : List Char} {c : Char}
    (h : c ∈ generateSlug title) : isSlugChar c = true :=
  mem_slugCore_isSlugChar (generateSlug_eq_slugCore title ▸ h)

/-- C1: the claim fails on the code.  `Post.generateSlug` ends in
`.trim('-')`, but JavaScript `String.prototype.trim` ignores its argument
and trims whitespace, so leading and trailing hyphens are NOT removed,
contradicting both the claim and the source's own comment
("Remove leading/trailing hyphens").  For the title `" hello "` the code
produces `"-hello-"`, which begins and ends with a hyphen, while the
documented transform produces `"hello"`. -/
theorem C1_generateSlug_trim_is_noop :
    generateSlug " hello ".toList = "-hello-".toList ∧
    generateSlugSpec " hello ".toList = "hello".toList ∧
    generateSlug " hello ".toList ≠ generateSlugSpec " hello ".toList := by
  decide

/-- C7: `Post.generateSlug` is idempotent: applying it to its own output
returns the output unchanged (every output character is in `[a-z0-9-]`, on
which each stage of the pipeline is the identity). -/
theorem C7_generateSlug_idempotent (title : List Char) :
    generateSlug (generateSlug title) = generateSlug title := by
  have hA : ∀ c ∈ generateSlug title, isSlugChar c = true :=
    fun c hc => mem_generateSlug_isSlugChar hc
  have hmap : (generateSlug title).map Char.toLower = generateSlug title := by
    have := List.map_congr_left (l := generateSlug title)
      (f := Char.toLower) (g := id)
      (fun a ha => slugChar_toLower_fix (hA a ha))
    simpa using this
  have hfilter : (generateSlug title).filter keepChar = generateSlug title :=
    List.filter_eq_self.mpr fun c hc => slugChar_keep (hA c hc)
  have hws : collapseRuns isJsWhitespace '-' (generateSlug title) =
      generateSlug title :=
    collapseRuns_id fun c hc => slugChar_not_ws (hA c hc)
  have hnoadj : noAdj (fun c => c == '-') (generateSlug title) = true := by
    rw [generateSlug_eq_slugCore]
    exact noAdj_collapseRuns rfl
  have hhyph : collapseRuns (fun c => c == '-') '-' (generateSlug title) =
      generateSlug title := collapseRuns_hyphen_id hnoadj
  have htrim : jsTrim (generateSlug title) = generateSlug title :=
    jsTrim_id fun c hc => slugChar_not_ws (hA c hc)
  conv_lhs => rw [generateSlug, hmap, hfilter, hws, hhyph, htrim]

/-! ## Decimal rendering (JS template interpolation of the slug counter) -/

/-- The character for decimal digit `n < 10`. -/
def digitChar (n : Nat) : Char := Char.ofNat (48 + n)

def isDigitChar (c : Char) : Bool := 48 ≤ c.toNat && c.toNat ≤ 57

/-- Decimal rendering with explicit fuel (structural, so that the kernel can
evaluate it); `natToDec` supplies sufficient fuel. -/
def natToDecGo : Nat → Nat → List Char
  | _, 0 => []
  | n, fuel + 1 =>
    if n < 10 then [digitChar n]
    else natToDecGo (n / 10) fuel ++ [digitChar (n % 10)]

/-- Decimal rendering of a natural number, as JavaScript template
interpolation produces it. -/
def natToDec (n : Nat) : List Char := natToDecGo n (n + 1)

/-- Decimal reading, as `parseInt` behaves on an all-digit string. -/
def decToNat (l : List Char) : Nat :=
  l.foldl (fun a c => 10 * a + (c.toNat - 48)) 0

theorem digitChar_toNat {m : Nat} (h : m < 10) : (digitChar m).toNat = 48 + m := by
  interval_cases m <;> decide

theorem decToNat_natToDecGo :
    ∀ fuel n, n < fuel → decToNat (natToDecGo n fuel) = n
  | 0, n, h => absurd h (by omega)
  | fuel + 1, n, h => by
    rw [natToDecGo]
    split
    · next h10 => simp [decToNat, digitChar_toNat h10]
    · next h10 =>
      have hdiv : n / 10 < fuel :=
        lt_of_lt_of_le (Nat.div_lt_self (by omega) (by omega)) (by omega)
      unfold decToNat
      rw [List.foldl_append]
      simp only [List.foldl_cons, List.foldl_nil]
      rw [show (natToDecGo (n / 10) fuel).foldl
          (fun a c => 10 * a + (c.toNat - 48)) 0 =
          decToNat (natToDecGo (n / 10) fuel) from rfl]
      rw [decToNat_natToDecGo fuel (n / 10) hdiv]
      rw [digitChar_toNat (Nat.mod_lt _ (by omega))]
      omega

theorem decToNat_natToDec (n : Nat) : decToNat (natToDec n) = n :=
  decToNat_natToDecGo (n + 1) n (by omega)

theorem natToDec_inj {i j : Nat} (h : natToDec i = natToDec j) : i = j := by
  have := congrArg decToNat h
  rwa [decToNat_natToDec, decToNat_natToDec] at this

theorem natToDecGo_all_digits :
    ∀ fuel n, ∀ c ∈ natToDecGo n fuel, isDigitChar c = true
  | 0, n, c, h => by simp [natToDecGo] at h
  | fuel + 1, n, c, h => by
    rw [natToDecGo] at h
    split at h
    · next h10 =>
      rw [List.mem_singleton] at h
      subst h
      simp only [isDigitChar, digitChar_toNat h10, Bool.and_eq_true,
        decide_eq_true_eq]
      omega
    · next h10 =>
      rw [List.mem_append] at h
      rcases h with h | h
      · exact natToDecGo_all_digits fuel (n / 10) c h
      · rw [List.mem_singleton] at h
        subst h
        simp only [isDigitChar, digitChar_toNat (Nat.mod_lt _ (by omega) :
          n % 10 < 10), Bool.and_eq_true, decide_eq_true_eq]
        omega

theorem natToDec_all_digits {n : Nat} {c : Char} (h : c ∈ natToDec n) :
    isDigitChar c = true :=
  natToDecGo_all_digits (n + 1) n c h

theorem natToDecGo_ne_nil :
    ∀ fuel n, n < fuel → natToDecGo n fuel ≠ []
  | 0, n, h => absurd h (by omega)
  | fuel + 1, n, _ => by
    rw [natToDecGo]
    split
    · exact List.cons_ne_nil _ _
    · simp

theorem natToDec_ne_nil (n : Nat) : natToDec n ≠ [] :=
  natToDecGo_ne_nil (n + 1) n (by omega)

/-! ## Data model (relational records, section 3 of the spec) -/

structure UserRow where
  id : Nat
  name : List Char
deriving DecidableEq, Repr

structure PostRow where
  id : Nat
  userId : Nat
  title : List Char
  excerpt : List Char
  body : List Char
  slug : List Char
  tags : List (List Char)
  published : Bool
  views : Nat
  createdAt : Nat
deriving DecidableEq, Repr

structure CommentRow where
  id : Nat
  postId : Nat
  userId : Nat
deriving DecidableEq, Repr

structure LikeRow where
  id : Nat
  postId : Nat
  userId : Nat
  createdAt : Nat
deriving DecidableEq, Repr

structure DB where
  users : List UserRow
  posts : List PostRow
  comments : List CommentRow
  likes : List LikeRow
deriving DecidableEq, Repr

/-! ## Unique slug generation (Post.generateUniqueSlug, lines 31-50) -/

/-- The probe `SELECT id FROM posts WHERE slug = $1` (adding `AND id != $2`
when an `excludeId` is passed) returns at least one row. -/
def slugTaken (db : DB) (slug : List Char) (excludeId : Option Nat) : Bool :=
  db.posts.any fun p =>
    decide (p.slug = slug) && (match excludeId with
      | none => true
      | some e => decide (p.id ≠ e))

/-- The candidate slug tried at step `k`: the base slug for `k = 0`, and
`${baseSlug}-${k}` afterwards. -/
def candidateSlug (base : List Char) : Nat → List Char
  | 0 => base
  | k + 1 => base ++ '-' :: natToDec (k + 1)

/-- The `while (true)` probe loop of `Post.generateUniqueSlug`, indexed by
the candidate number `m` (`m = counter - 1` in the source) and explicit fuel;
`exists_free_candidate` shows the fuel chosen in `generateUniqueSlug` never
runs out. -/
def uniqueSlugLoop (db : DB) (excludeId : Option Nat) (base : List Char) :
    Nat → Nat → List Char
  | m, 0 => candidateSlug base m
  | m, fuel + 1 =>
    if slugTaken db (candidateSlug base m) excludeId then
      uniqueSlugLoop db excludeId base (m + 1) fuel
    else candidateSlug base m

/-- `Post.generateUniqueSlug` (src/models/Post.js lines 31-50). -/
def generateUniqueSlug (db : DB) (title : List Char) (excludeId : Option Nat) :
    List Char :=
  uniqueSlugLoop db excludeId (generateSlug title) 0 (db.posts.length + 1)

theorem candidateSlug_inj (base : List Char) {i j : Nat}
    (h : candidateSlug base i = candidateSlug base j) : i = j := by
  match i, j with
  | 0, 0 => rfl
  | 0, k + 1 =>
    exfalso
    have hlen := congrArg List.length h
    simp only [candidateSlug, List.length_append, List.length_cons] at hlen
    omega
  | k + 1, 0 =>
    exfalso
    have hlen := congrArg List.length h
    simp only [candidateSlug, List.length_append, List.length_cons] at hlen
    omega
  | k + 1, l + 1 =>
    simp only [candidateSlug, List.append_cancel_left_eq, List.cons.injEq,
      true_and] at h
    exact natToDec_inj h

/-- Among the candidates `base`, `base-1`, ..., `base-N` (`N` the number of
stored posts) at least one is not taken: the candidates are pairwise
distinct, and at most `N` distinct slugs are stored. -/
theorem exists_free_candidate (db : DB) (excludeId : Option Nat)
    (base : List Char) :
    ∃ m, m ≤ db.posts.length ∧
      slugTaken db (candidateSlug base m) excludeId = false := by
  by_contra hcon
  push_neg at hcon
  have htaken : ∀ m ≤ db.posts.length,
      slugTaken db (candidateSlug base m) excludeId = true := by
    intro m hm
    have hne := hcon m hm
    cases h : slugTaken db (candidateSlug base m) excludeId
    · exact absurd h hne
    · rfl
  have hmemslugs : ∀ m ≤ db.posts.length,
      candidateSlug base m ∈ db.posts.map (fun p => p.slug) := by
    intro m hm
    have ht := htaken m hm
    rw [slugTaken, List.any_eq_true] at ht
    obtain ⟨p, hp, hcond⟩ := ht
    rw [Bool.and_eq_true, decide_eq_true_eq] at hcond
    exact List.mem_map.mpr ⟨p, hp, hcond.1⟩
  have hnodup : ((List.range (db.posts.length + 1)).map
      (candidateSlug base)).Nodup :=
    (List.nodup_range _).map (fun a b hab => candidateSlug_inj base hab)
  have hsub : ∀ x ∈ (List.range (db.posts.length + 1)).map (candidateSlug base),
      x ∈ db.posts.map (fun p => p.slug) := by
    intro x hx
    obtain ⟨m, hm, rfl⟩ := List.mem_map.mp hx
    exact hmemslugs m (by rw [List.mem_range] at hm; omega)
  have hcard1 : ((List.range (db.posts.length + 1)).map
      (candidateSlug base)).toFinset.card = db.posts.length + 1 := by
    rw [List.toFinset_card_of_nodup hnodup]
    simp
  have hsubF : ((List.range (db.posts.length + 1)).map
        (candidateSlug base)).toFinset ⊆
      (db.posts.map (fun p => p.slug)).toFinset :=
    fun x hx => List.mem_toFinset.mpr (hsub x (List.mem_toFinset.mp hx))
  have hle := Finset.card_le_card hsubF
  have hcard2 : (db.posts.map (fun p => p.slug)).toFinset.card ≤
      db.posts.length := by
    calc (db.posts.map (fun p => p.slug)).toFinset.card
        ≤ (db.posts.map (fun p => p.slug)).length := List.toFinset_card_le _
      _ = db.posts.length := by simp
  omega

/-- The probe loop returns the first free candidate at index `≥ m`, provided
one exists within the available fuel. -/
theorem uniqueSlugLoop_spec (db : DB) (excl : Option Nat) (base : List Char) :
    ∀ fuel m,
      (∃ k, m ≤ k ∧ k < m + fuel ∧
        slugTaken db (candidateSlug base k) excl = false) →
      ∃ k, m ≤ k ∧
        uniqueSlugLoop db excl base m fuel = candidateSlug base k ∧
        slugTaken db (candidateSlug base k) excl = false ∧
        ∀ j, m ≤ j → j < k → slugTaken db (candidateSlug base j) excl = true
  | 0, m, h => by obtain ⟨k, h1, h2, _⟩ := h; omega
  | fuel + 1, m, h => by
    cases htm : slugTaken db (candidateSlug base m) excl with
    | false =>
      refine ⟨m, le_refl m, ?_, htm, fun j hj1 hj2 => by omega⟩
      simp [uniqueSlugLoop, htm]
    | true =>
      obtain ⟨k, hk1, hk2, hk3⟩ := h
      have hkm : m < k := by
        rcases Nat.lt_or_ge m k with h1 | h1
        · exact h1
        · have hkeq : k = m := by omega
          rw [hkeq, htm] at hk3
          exact absurd hk3 (by simp)
      obtain ⟨q, h1, h2, h3, h4⟩ := uniqueSlugLoop_spec db excl base fuel
        (m + 1) ⟨k, by omega, by omega, hk3⟩
      refine ⟨q, by omega, ?_, h3, ?_⟩
      · simpa [uniqueSlugLoop, htm] using h2
      · intro j hj1 hj2
        rcases Nat.eq_or_lt_of_le hj1 with rfl | hlt
        · exact htm
        · exact h4 j (by omega) hj2

/-- C6: `generateUniqueSlug` returns the base slug when no stored record
(other than the one identified by `excludeId`, when given) carries it, and
otherwise the first of `base-1`, `base-2`, ... carried by no such record;
the returned slug is itself never carried by such a record, so successive
creations with colliding titles store pairwise distinct slugs
`base`, `base-1`, `base-2`, .... -/
theorem C6_generateUniqueSlug_first_free (db : DB) (title : List Char)
    (excludeId : Option Nat) :
    (slugTaken db (generateSlug title) excludeId = false →
      generateUniqueSlug db title excludeId = generateSlug title) ∧
    (slugTaken db (generateSlug title) excludeId = true →
      ∃ k, 1 ≤ k ∧
        generateUniqueSlug db title excludeId =
          candidateSlug (generateSlug title) k ∧
        slugTaken db (candidateSlug (generateSlug title) k) excludeId
          = false ∧
        ∀ j, 1 ≤ j → j < k →
          slugTaken db (candidateSlug (generateSlug title) j) excludeId
            = true) ∧
    slugTaken db (generateUniqueSlug db title excludeId) excludeId = false := by
  obtain ⟨m0, hm0le, hm0free⟩ :=
    exists_free_candidate db excludeId (generateSlug title)
  obtain ⟨k, hk0, heq, hfree, hmin⟩ := uniqueSlugLoop_spec db excludeId
    (generateSlug title) (db.posts.length + 1) 0
    ⟨m0, by omega, by omega, hm0free⟩
  refine ⟨?_, ?_, ?_⟩
  · intro hb
    show uniqueSlugLoop db excludeId (generateSlug title) 0
      (db.posts.length + 1) = generateSlug title
    simp [uniqueSlugLoop, candidateSlug, hb]
  · intro hb
    have hk1 : 1 ≤ k := by
      cases k with
      | zero =>
        rw [show candidateSlug (generateSlug title) 0 = generateSlug title
          from rfl, hb] at hfree
        exact absurd hfree (by simp)
      | succ n => omega
    exact ⟨k, hk1, heq, hfree, fun j hj1 hj2 => hmin j (by omega) hj2⟩
  · rw [show generateUniqueSlug db title excludeId =
      uniqueSlugLoop db excludeId (generateSlug title) 0
        (db.posts.length + 1) from rfl, heq]
    exact hfree

def dbC6 : DB :=
  { users := [],
    posts := [
      { id := 1, userId := 1, title := "Other".toList, excerpt := [],
        body := [], slug := "other".toList, tags := [], published := true,
        views := 0, createdAt := 0 }],
    comments := [], likes := [] }

theorem C6_generateUniqueSlug_first_free_witness :
    slugTaken dbC6 (generateSlug "My Title".toList) none = false ∧
    generateUniqueSlug dbC6 "My Title".toList none =
      generateSlug "My Title".toList :=
  ⟨by decide,
    (C6_generateUniqueSlug_first_free dbC6 "My Title".toList none).1 (by decide)⟩

/-! ## Ownership guard (checkOwnership, src/middleware/auth.js lines 88-116) -/

inductive GuardResult where
  | next
  | err (status : Nat)
deriving DecidableEq, Repr

inductive ResourceType where
  | post
  | comment
deriving DecidableEq, Repr

/-- The per-kind owner lookup of `checkOwnership`:
`SELECT user_id FROM posts WHERE id = $1` respectively
`SELECT user_id FROM comments WHERE id = $1`. -/
def ownerLookup (rt : ResourceType) (db : DB) (resourceId : Nat) :
    Option Nat :=
  match rt with
  | .post => (db.posts.find? fun p => p.id == resourceId).map fun p => p.userId
  | .comment =>
    (db.comments.find? fun c => c.id == resourceId).map fun c => c.userId

/-- `checkOwnership(resourceType)` applied to a request with path id
`resourceId` and authenticated user id `userId`.  Response bodies are
elided; only the control flow (pass to next handler vs error status) is
modelled. -/
def checkOwnership (rt : ResourceType) (db : DB) (resourceId userId : Nat) :
    GuardResult :=
  match ownerLookup rt db resourceId with
  | none => .err 404
  | some owner => if owner ≠ userId then .err 403 else .next

/-- C2: the ownership guard yields 404 when the resource is absent, 403 when
it exists with a different owning user id, and passes control to the next
handler exactly when it exists and the owning user id equals the acting
user's id. -/
theorem C2_checkOwnership_correct (rt : ResourceType) (db : DB)
    (resourceId userId : Nat) :
    (ownerLookup rt db resourceId = none →
      checkOwnership rt db resourceId userId = .err 404) ∧
    (∀ o, ownerLookup rt db resourceId = some o → o ≠ userId →
      checkOwnership rt db resourceId userId = .err 403) ∧
    (∀ o, ownerLookup rt db resourceId = some o → o = userId →
      checkOwnership rt db resourceId userId = .next) ∧
    (checkOwnership rt db resourceId userId = .next ↔
      ownerLookup rt db resourceId = some userId) := by
  refine ⟨fun h => by simp [checkOwnership, h],
    fun o ho hne => by simp [checkOwnership, ho, hne],
    fun o ho he => by simp [checkOwnership, ho, he], ?_⟩
  constructor
  · intro h
    rcases hlook : ownerLookup rt db resourceId with _ | o
    · simp [checkOwnership, hlook] at h
    · simp only [checkOwnership, hlook] at h
      by_cases ho : o = userId
      · rw [ho]
      · rw [if_pos ho] at h
        exact absurd h (by simp)
  · intro h
    simp [checkOwnership, h]

def dbOwn : DB :=
  { users := [{ id := 1, name := "alice".toList }],
    posts := [
      { id := 7, userId := 1, title := "T".toList, excerpt := [],
        body := [], slug := "t".toList, tags := [], published := true,
        views := 0, createdAt := 0 }],
    comments := [], likes := [] }

theorem C2_checkOwnership_correct_witness :
    checkOwnership ResourceType.post dbOwn 7 1 = GuardResult.next ∧
    checkOwnership ResourceType.post dbOwn 7 2 = GuardResult.err 403 ∧
    checkOwnership ResourceType.post dbOwn 8 1 = GuardResult.err 404 :=
  ⟨(C2_checkOwnership_correct ResourceType.post dbOwn 7 1).2.2.1 1
      (by decide) rfl,
    (C2_checkOwnership_correct ResourceType.post dbOwn 7 2).2.1 1
      (by decide) (by decide),
    (C2_checkOwnership_correct ResourceType.post dbOwn 8 1).1 (by decide)⟩

/-! ## Authentication guard (verifyToken / optionalAuth, auth.js lines 16-85) -/

/-- Result of `jwt.verify` on a token (the signing library is an external
collaborator; its outcomes are its error taxonomy as handled by the source:
`JsonWebTokenError`, `TokenExpiredError`, or a decoded payload carrying the
user id). -/
inductive TokenVerify where
  | ok (userId : Nat)
  | badSignature
  | expired
deriving DecidableEq, Repr

/-- Outcome of an authentication middleware: reject the request with a
status, or pass it on with an optionally attached user. -/
inductive AuthOutcome where
  | rejected (status : Nat)
  | proceed (user : Option UserRow)
deriving DecidableEq, Repr

/-- JavaScript `String.prototype.split` with a single-character separator
(empty pieces are kept, as in JS). -/
def jsSplit (sep : Char) : List Char → List (List Char)
  | [] => [[]]
  | c :: cs =>
    if c == sep then [] :: jsSplit sep cs
    else
      match jsSplit sep cs with
      | [] => [[c]]
      | piece :: rest => (c :: piece) :: rest

def startsWith : List Char → List Char → Bool
  | [], _ => true
  | _ :: _, [] => false
  | c :: cs, d :: ds => c == d && startsWith cs ds

/-- Token extraction shared by both middlewares (auth.js lines 17-26 and
59-67): the `Authorization` header must start with `Bearer `, the token is
`header.split(' ')[1]`, and an empty token is falsy in JS (treated as
missing). -/
def extractToken (header : Option (List Char)) : Option (List Char) :=
  match header with
  | none => none
  | some h =>
    if startsWith "Bearer ".toList h then
      match (jsSplit ' ' h).get? 1 with
      | none => none
      | some t => if t = [] then none else some t
    else none

/-- `SELECT id, name, ... FROM users WHERE id = $1`. -/
def findUser (db : DB) (userId : Nat) : Option UserRow :=
  db.users.find? fun u => u.id == userId

/-- `verifyToken` (mandatory mode, auth.js lines 16-55), parameterized by the
verification outcome function of the token library. -/
def verifyToken (verify : List Char → TokenVerify) (db : DB)
    (header : Option (List Char)) : AuthOutcome :=
  match extractToken header with
  | none => .rejected 401
  | some t =>
    match verify t with
    | .badSignature => .rejected 401
    | .expired => .rejected 401
    | .ok uid =>
      match findUser db uid with
      | none => .rejected 401
      | some u => .proceed (some u)

/-- `optionalAuth` (optional mode, auth.js lines 58-85): token errors are
swallowed, a user is attached only when the token is valid and the user
still exists. -/
def optionalAuth (verify : List Char → TokenVerify) (db : DB)
    (header : Option (List Char)) : AuthOutcome :=
  match extractToken header with
  | none => .proceed none
  | some t =>
    match verify t with
    | .ok uid => .proceed (findUser db uid)
    | .badSignature => .proceed none
    | .expired => .proceed none

/-- C3: in mandatory mode a missing token, invalid signature, expired token,
or valid token whose user no longer exists each yields 401 (the handler is
never reached); in optional mode the same inputs proceed with no user
attached; a valid token for an existing user attaches that user in both
modes. -/
theorem C3_auth_modes (verify : List Char → TokenVerify) (db : DB)
    (header : Option (List Char)) :
    (extractToken header = none →
      verifyToken verify db header = .rejected 401 ∧
      optionalAuth verify db header = .proceed none) ∧
    (∀ t, extractToken header = some t → verify t = .badSignature →
      verifyToken verify db header = .rejected 401 ∧
      optionalAuth verify db header = .proceed none) ∧
    (∀ t, extractToken header = some t → verify t = .expired →
      verifyToken verify db header = .rejected 401 ∧
      optionalAuth verify db header = .proceed none) ∧
    (∀ t uid, extractToken header = some t → verify t = .ok uid →
      findUser db uid = none →
      verifyToken verify db header = .rejected 401 ∧
      optionalAuth verify db header = .proceed none) ∧
    (∀ t uid u, extractToken header = some t → verify t = .ok uid →
      findUser db uid = some u →
      verifyToken verify db header = .proceed (some u) ∧
      optionalAuth verify db header = .proceed (some u)) := by
  refine ⟨fun h => ⟨by simp [verifyToken, h], by simp [optionalAuth, h]⟩,
    fun t ht hv => ⟨by simp [verifyToken, ht, hv],
      by simp [optionalAuth, ht, hv]⟩,
    fun t ht hv => ⟨by simp [verifyToken, ht, hv],
      by simp [optionalAuth, ht, hv]⟩,
    fun t uid ht hv hu => ⟨by simp [verifyToken, ht, hv, hu],
      by simp [optionalAuth, ht, hv, hu]⟩,
    fun t uid u ht hv hu => ⟨by simp [verifyToken, ht, hv, hu],
      by simp [optionalAuth, ht, hv, hu]⟩⟩

def dbAuth : DB :=
  { users := [{ id := 1, name := "alice".toList }],
    posts := [], comments := [], likes := [] }

def verifyFn : List Char → TokenVerify :=
  fun t => if t = "goodtoken".toList then TokenVerify.ok 1
    else TokenVerify.badSignature

theorem C3_auth_modes_witness :
    (verifyToken verifyFn dbAuth (some "Bearer goodtoken".toList) =
      AuthOutcome.proceed (some { id := 1, name := "alice".toList }) ∧
     optionalAuth verifyFn dbAuth (some "Bearer goodtoken".toList) =
      AuthOutcome.proceed (some { id := 1, name := "alice".toList })) ∧
    (verifyToken verifyFn dbAuth none = AuthOutcome.rejected 401 ∧
     optionalAuth verifyFn dbAuth none = AuthOutcome.proceed none) :=
  ⟨(C3_auth_modes verifyFn dbAuth (some "Bearer goodtoken".toList)).2.2.2.2
      "goodtoken".toList 1 { id := 1, name := "alice".toList }
      (by decide) (by decide) (by decide),
   (C3_auth_modes verifyFn dbAuth none).1 (by decide)⟩

/-! ## Like toggle (Like.toggle, src/models/Like.js lines 6-28) -/

/-- The row condition `post_id = $1 AND user_id = $2` shared by the probe,
the delete and the membership check of the like model. -/
def pairMatch (postId userId : Nat) (l : LikeRow) : Bool :=
  l.postId == postId && l.userId == userId

/-- `SELECT id FROM likes WHERE post_id = $1 AND user_id = $2` returns at
least one row (also `Like.isLikedByUser`). -/
def isLiked (likes : List LikeRow) (postId userId : Nat) : Bool :=
  likes.any (pairMatch postId userId)

/-- `Like.toggle`: if a row for the pair exists, `DELETE` them all and report
`liked: false` ("unliked"); otherwise `INSERT` one row and report
`liked: true` ("liked").  The inserted row's surrogate id and timestamp are
supplied by the storage layer (`newId`, `now`). -/
def likeToggle (likes : List LikeRow) (postId userId newId now : Nat) :
    List LikeRow × Bool :=
  if likes.any (pairMatch postId userId) then
    (likes.filter fun l => !pairMatch postId userId l, false)
  else
    (likes ++
      [{ id := newId, postId := postId, userId := userId, createdAt := now }],
      true)

/-- `Like.getCountByPostId`: `SELECT COUNT(*) FROM likes WHERE post_id = $1`. -/
def likesCount (likes : List LikeRow) (postId : Nat) : Nat :=
  (likes.filter fun l => l.postId == postId).length

/-- Number of stored rows for one (post, user) pair; the composite-unique
constraint of the data model keeps it at most 1. -/
def pairCount (likes : List LikeRow) (postId userId : Nat) : Nat :=
  (likes.filter (pairMatch postId userId)).length

theorem length_filter_split {α : Type} (a b : α → Bool) (s : List α) :
    (s.filter a).length =
      (s.filter fun x => a x && b x).length +
      (s.filter fun x => a x && !b x).length := by
  induction s with
  | nil => rfl
  | cons x xs ih =>
    cases ha : a x <;> cases hb : b x <;>
      simp [List.filter_cons, ha, hb, ih] <;> omega

/-- After one toggle the pair's liked state is flipped. -/
theorem likeToggle_isLiked (likes : List LikeRow) (postId userId n t : Nat) :
    isLiked (likeToggle likes postId userId n t).1 postId userId =
      !(isLiked likes postId userId) := by
  cases h : likes.any (pairMatch postId userId) with
  | false =>
    simp only [isLiked, likeToggle, h, Bool.false_eq_true, if_false,
      List.any_append, Bool.not_false]
    simp [pairMatch, h]
  | true =>
    simp only [isLiked, likeToggle, h, if_true, Bool.not_true]
    rw [List.any_eq_false]
    intro l hl
    rw [List.mem_filter] at hl
    simpa using hl.2

/-- After one toggle the reported flag is `liked` exactly when the pair was
not liked before. -/
theorem likeToggle_report (likes : List LikeRow) (postId userId n t : Nat) :
    (likeToggle likes postId userId n t).2 = !(isLiked likes postId userId) := by
  cases h : likes.any (pairMatch postId userId) <;>
    simp [likeToggle, isLiked, h]


theorem likeToggle_liked_eq {likes : List LikeRow} {postId userId : Nat}
    (h : likes.any (pairMatch postId userId) = true) (n t : Nat) :
    likeToggle likes postId userId n t =
      (likes.filter fun l => !pairMatch postId userId l, false) := by
  unfold likeToggle
  rw [if_pos h]

theorem likeToggle_unliked_eq {likes : List LikeRow} {postId userId : Nat}
    (h : likes.any (pairMatch postId userId) = false) (n t : Nat) :
    likeToggle likes postId userId n t =
      (likes ++
        [({ id := n, postId := postId, userId := userId, createdAt := t } :
          LikeRow)], true) := by
  unfold likeToggle
  rw [if_neg]
  simp [h]

/-- C4: a single toggle deletes the pair's row(s) and reports "unliked" when
a row exists, and inserts a row and reports "liked" when none exists;
toggling twice returns the pair's liked state to its initial value, and (the
composite-unique invariant holding, i.e. at most one row per pair) the
post's like count to its initial value. -/
theorem C4_like_toggle_spec (likes : List LikeRow)
    (postId userId n1 t1 n2 t2 : Nat)
    (huniq : pairCount likes postId userId ≤ 1) :
    (isLiked likes postId userId = true →
      likeToggle likes postId userId n1 t1 =
        (likes.filter fun l => !pairMatch postId userId l, false)) ∧
    (isLiked likes postId userId = false →
      likeToggle likes postId userId n1 t1 =
        (likes ++
          [({ id := n1, postId := postId, userId := userId,
              createdAt := t1 } : LikeRow)], true)) ∧
    isLiked (likeToggle (likeToggle likes postId userId n1 t1).1
        postId userId n2 t2).1 postId userId =
      isLiked likes postId userId ∧
    likesCount (likeToggle (likeToggle likes postId userId n1 t1).1
        postId userId n2 t2).1 postId = likesCount likes postId := by
  refine ⟨fun h => likeToggle_liked_eq h n1 t1,
    fun h => likeToggle_unliked_eq h n1 t1, ?_, ?_⟩
  · rw [likeToggle_isLiked, likeToggle_isLiked, Bool.not_not]
  · cases h : likes.any (pairMatch postId userId) with
    | true =>
      have h1 : (likeToggle likes postId userId n1 t1).1 =
          likes.filter fun l => !pairMatch postId userId l := by
        rw [likeToggle_liked_eq h n1 t1]
      have h2 : ((likes.filter fun l => !pairMatch postId userId l).any
          (pairMatch postId userId)) = false := by
        rw [List.any_eq_false]
        intro l hl
        rw [List.mem_filter] at hl
        simpa using hl.2
      have h3 : (likeToggle (likeToggle likes postId userId n1 t1).1
          postId userId n2 t2).1 =
          (likes.filter fun l => !pairMatch postId userId l) ++
            [({ id := n2, postId := postId, userId := userId,
                createdAt := t2 } : LikeRow)] := by
        rw [h1, likeToggle_unliked_eq h2 n2 t2]
      rw [h3]
      unfold likesCount
      rw [List.filter_append, List.length_append, List.filter_filter]
      have hrow : (List.filter (fun l => l.postId == postId)
          [({ id := n2, postId := postId, userId := userId,
              createdAt := t2 } : LikeRow)]).length = 1 := by simp
      rw [hrow]
      have hcongr : List.filter
          (fun a => a.postId == postId && !pairMatch postId userId a) likes =
          List.filter
            (fun x => x.postId == postId && !(x.userId == userId)) likes := by
        apply List.filter_congr
        intro l _
        unfold pairMatch
        cases hp : (l.postId == postId) <;> cases hu : (l.userId == userId) <;>
          simp [hp, hu]
      rw [hcongr]
      have hsplit := length_filter_split (fun l : LikeRow => l.postId == postId)
        (fun l => l.userId == userId) likes
      have hge : 1 ≤ pairCount likes postId userId := by
        rw [List.any_eq_true] at h
        obtain ⟨l, hl, hpl⟩ := h
        have hmem : l ∈ likes.filter (pairMatch postId userId) :=
          List.mem_filter.mpr ⟨hl, hpl⟩
        have hpos := List.length_pos.mpr (List.ne_nil_of_mem hmem)
        simpa [pairCount] using hpos
      have hpc : (List.filter
          (fun x : LikeRow => x.postId == postId && (x.userId == userId))
          likes).length = pairCount likes postId userId := rfl
      omega
    | false =>
      have h1 : (likeToggle likes postId userId n1 t1).1 =
          likes ++
            [({ id := n1, postId := postId, userId := userId,
                createdAt := t1 } : LikeRow)] := by
        rw [likeToggle_unliked_eq h n1 t1]
      have h2 : ((likes ++
          [({ id := n1, postId := postId, userId := userId,
              createdAt := t1 } : LikeRow)]).any
          (pairMatch postId userId)) = true := by
        rw [List.any_append]
        simp [pairMatch]
      have h3 : (likeToggle (likeToggle likes postId userId n1 t1).1
          postId userId n2 t2).1 =
          (likes ++
            [({ id := n1, postId := postId, userId := userId,
                createdAt := t1 } : LikeRow)]).filter
            fun l => !pairMatch postId userId l := by
        rw [h1, likeToggle_liked_eq h2 n2 t2]
      rw [h3]
      unfold likesCount
      rw [List.filter_filter, List.filter_append]
      have hnone : ∀ l ∈ likes, pairMatch postId userId l = false := by
        intro l hl
        rw [List.any_eq_false] at h
        simpa using h l hl
      have hrow : List.filter
          (fun a : LikeRow => a.postId == postId && !pairMatch postId userId a)
          [({ id := n1, postId := postId, userId := userId,
              createdAt := t1 } : LikeRow)] = [] := by
        simp [pairMatch]
      rw [hrow, List.append_nil]
      apply congrArg
      apply List.filter_congr
      intro l hl
      rw [hnone l hl]
      simp

def likesW : List LikeRow :=
  [{ id := 1, postId := 5, userId := 2, createdAt := 0 }]

theorem C4_like_toggle_spec_witness :
    isLiked (likeToggle (likeToggle likesW 5 2 9 1).1 5 2 10 2).1 5 2 =
      isLiked likesW 5 2 ∧
    likesCount (likeToggle (likeToggle likesW 5 2 9 1).1 5 2 10 2).1 5 =
      likesCount likesW 5 :=
  ⟨(C4_like_toggle_spec likesW 5 2 9 1 10 2 (by decide)).2.2.1,
   (C4_like_toggle_spec likesW 5 2 9 1 10 2 (by decide)).2.2.2⟩

/-! ## Ordering (`ORDER BY`): a structural sort with sortedness and
permutation lemmas, serving as the model of the database's sort. -/

def insertSorted {α : Type} (le : α → α → Bool) (x : α) : List α → List α
  | [] => [x]
  | y :: ys => if le x y then x :: y :: ys else y :: insertSorted le x ys

/-- Sort a list by the Boolean total preorder `le` (insertion sort). -/
def sortBy {α : Type} (le : α → α → Bool) : List α → List α
  | [] => []
  | x :: xs => insertSorted le x (sortBy le xs)

theorem insertSorted_perm {α : Type} (le : α → α → Bool) (x : α) :
    ∀ l : List α, List.Perm (insertSorted le x l) (x :: l)
  | [] => List.Perm.refl _
  | y :: ys => by
    cases h : le x y with
    | true => simp [insertSorted, h]
    | false =>
      simp only [insertSorted, h, Bool.false_eq_true, if_false]
      exact ((insertSorted_perm le x ys).cons y).trans (List.Perm.swap x y ys)

theorem sortBy_perm {α : Type} (le : α → α → Bool) :
    ∀ l : List α, List.Perm (sortBy le l) l
  | [] => List.Perm.refl _
  | x :: xs =>
    (insertSorted_perm le x (sortBy le xs)).trans ((sortBy_perm le xs).cons x)

theorem mem_sortBy {α : Type} {le : α → α → Bool} {x : α} {l : List α} :
    x ∈ sortBy le l ↔ x ∈ l :=
  (sortBy_perm le l).mem_iff

theorem length_sortBy {α : Type} (le : α → α → Bool) (l : List α) :
    (sortBy le l).length = l.length :=
  (sortBy_perm le l).length_eq

theorem insertSorted_sorted {α : Type} {le : α → α → Bool}
    (htotal : ∀ a b, le a b = true ∨ le b a = true)
    (htrans : ∀ a b c, le a b = true → le b c = true → le a c = true)
    (x : α) :
    ∀ {l : List α}, l.Pairwise (fun a b => le a b = true) →
      (insertSorted le x l).Pairwise (fun a b => le a b = true)
  | [], _ => by simp [insertSorted]
  | y :: ys, h => by
    obtain ⟨hy, hys⟩ := List.pairwise_cons.mp h
    cases hxy : le x y with
    | true =>
      simp only [insertSorted, hxy, if_true]
      refine List.pairwise_cons.mpr ⟨?_, h⟩
      intro z hz
      rcases List.mem_cons.mp hz with rfl | hz'
      · exact hxy
      · exact htrans x y z hxy (hy z hz')
    | false =>
      simp only [insertSorted, hxy, Bool.false_eq_true, if_false]
      have hyx : le y x = true := by
        rcases htotal x y with h' | h'
        · rw [hxy] at h'; exact absurd h' (by simp)
        · exact h'
      refine List.pairwise_cons.mpr ⟨?_, insertSorted_sorted htotal htrans x hys⟩
      intro z hz
      have hz' := (insertSorted_perm le x ys).mem_iff.mp hz
      rcases List.mem_cons.mp hz' with rfl | hz''
      · exact hyx
      · exact hy z hz''

theorem sortBy_sorted {α : Type} {le : α → α → Bool}
    (htotal : ∀ a b, le a b = true ∨ le b a = true)
    (htrans : ∀ a b c, le a b = true → le b c = true → le a c = true) :
    ∀ l : List α, (sortBy le l).Pairwise (fun a b => le a b = true)
  | [] => List.Pairwise.nil
  | x :: xs => insertSorted_sorted htotal htrans x (sortBy_sorted htotal htrans xs)

/-! ## Post listing with pagination (Post.findAll, lines 53-122) -/

structure Pagination where
  page : Nat
  limit : Nat
  total : Nat
  pages : Nat
deriving DecidableEq, Repr

structure PagedPosts where
  posts : List PostRow
  pagination : Pagination
deriving DecidableEq, Repr

/-- `Math.ceil(total / limit)` on naturals (meaningful for `limit > 0`). -/
def jsCeilDiv (total limit : Nat) : Nat := (total + limit - 1) / limit

/-- Row predicate of `Post.findAll`: `p.published = true`, plus
`p.tags && $n` (array overlap, a condition added only when a non-empty tag
list is passed, mirroring `if (tags && tags.length > 0)`) and
`p.user_id = $n` (when an author id is passed). -/
def findAllPred (tags : Option (List (List Char))) (userId : Option Nat)
    (p : PostRow) : Bool :=
  p.published &&
    (match tags with
     | none => true
     | some ts =>
       if ts.isEmpty then true
       else ts.any fun t => p.tags.any fun pt => pt == t) &&
    (match userId with
     | none => true
     | some uid => p.userId == uid)

/-- `ORDER BY p.created_at DESC` as a Boolean total preorder. -/
def createdDescLe (a b : PostRow) : Bool := decide (b.createdAt ≤ a.createdAt)

/-- `Post.findAll` (src/models/Post.js lines 53-122): filter the published
posts by the optional tag/author conditions, order newest first, slice with
`LIMIT`/`OFFSET` (`offset = (page-1)*limit`), and compute the total by an
independent count query over the same predicate. -/
def findAll (db : DB) (page limit : Nat) (tags : Option (List (List Char)))
    (userId : Option Nat) : PagedPosts :=
  let matching := db.posts.filter (findAllPred tags userId)
  { posts := ((sortBy createdDescLe matching).drop ((page - 1) * limit)).take
      limit,
    pagination :=
      { page := page, limit := limit, total := matching.length,
        pages := jsCeilDiv matching.length limit } }

theorem total_le_mul_jsCeilDiv {total limit : Nat} (hl : 1 ≤ limit) :
    total ≤ jsCeilDiv total limit * limit := by
  have hdm := Nat.div_add_mod (total + limit - 1) limit
  have hmod := Nat.mod_lt (total + limit - 1) (show 0 < limit by omega)
  have hcomm : (total + limit - 1) / limit * limit =
      limit * ((total + limit - 1) / limit) := Nat.mul_comm _ _
  unfold jsCeilDiv
  omega

theorem jsCeilDiv_minimal {total limit n : Nat} (hl : 1 ≤ limit)
    (h : total ≤ n * limit) : jsCeilDiv total limit ≤ n := by
  unfold jsCeilDiv
  by_contra hc
  push_neg at hc
  have h2 : (n + 1) * limit ≤ total + limit - 1 :=
    (Nat.le_div_iff_mul_le (show 0 < limit by omega)).mp (by omega)
  have h3 : (n + 1) * limit = n * limit + limit := Nat.succ_mul n limit
  omega

/-- `Math.ceil(total / limit)` coincides with the rational ceiling. -/
theorem jsCeilDiv_eq_ceil {total limit : Nat} (hl : 1 ≤ limit) :
    jsCeilDiv total limit = ⌈(total : ℚ) / (limit : ℚ)⌉₊ := by
  have hlQ : (0 : ℚ) < (limit : ℚ) := by
    exact_mod_cast (show 0 < limit by omega)
  apply le_antisymm
  · have h1 : ((total : ℚ) / limit) ≤
        (⌈(total : ℚ) / (limit : ℚ)⌉₊ : ℚ) := Nat.le_ceil _
    rw [div_le_iff₀ hlQ] at h1
    have h2 : total ≤ ⌈(total : ℚ) / (limit : ℚ)⌉₊ * limit := by
      exact_mod_cast h1
    exact jsCeilDiv_minimal hl h2
  · rw [Nat.ceil_le, div_le_iff₀ hlQ]
    exact_mod_cast total_le_mul_jsCeilDiv hl

/-- C5: the pagination metadata of a post list query reports the requested
page and limit, `total` equal to the number of matching rows, and
`pages = ceil(total / limit)` (so `total = 0` gives `pages = 0`); requesting
a page strictly beyond the last returns an empty item list together with the
same metadata, not an error. -/
theorem C5_pagination_spec (db : DB) (page limit : Nat)
    (tags : Option (List (List Char))) (userId : Option Nat)
    (_hp : 1 ≤ page) (hl : 1 ≤ limit) :
    (findAll db page limit tags userId).pagination.page = page ∧
    (findAll db page limit tags userId).pagination.limit = limit ∧
    (findAll db page limit tags userId).pagination.total =
      (db.posts.filter (findAllPred tags userId)).length ∧
    (findAll db page limit tags userId).pagination.pages =
      ⌈(((findAll db page limit tags userId).pagination.total : ℚ)) /
        (limit : ℚ)⌉₊ ∧
    ((findAll db page limit tags userId).pagination.total = 0 →
      (findAll db page limit tags userId).pagination.pages = 0) ∧
    ((findAll db page limit tags userId).pagination.total ≤
        (page - 1) * limit →
      (findAll db page limit tags userId).posts = []) := by
  refine ⟨rfl, rfl, rfl, ?_, ?_, ?_⟩
  · exact jsCeilDiv_eq_ceil hl
  · intro h0
    show jsCeilDiv (db.posts.filter (findAllPred tags userId)).length limit = 0
    have h0' : (db.posts.filter (findAllPred tags userId)).length = 0 := h0
    rw [h0']
    unfold jsCeilDiv
    exact Nat.div_eq_of_lt (by omega)
  · intro hbeyond
    show ((sortBy createdDescLe
        (db.posts.filter (findAllPred tags userId))).drop
          ((page - 1) * limit)).take limit = []
    have hdrop : (sortBy createdDescLe
        (db.posts.filter (findAllPred tags userId))).drop
          ((page - 1) * limit) = [] := by
      apply List.drop_eq_nil_of_le
      rw [length_sortBy]
      exact hbeyond
    rw [hdrop, List.take_nil]

def dbFive : DB :=
  { users := [],
    posts := [
      { id := 1, userId := 1, title := "A".toList, excerpt := [], body := [],
        slug := "a".toList, tags := [], published := true, views := 0,
        createdAt := 1 },
      { id := 2, userId := 1, title := "B".toList, excerpt := [], body := [],
        slug := "b".toList, tags := [], published := true, views := 0,
        createdAt := 2 },
      { id := 3, userId := 1, title := "C".toList, excerpt := [], body := [],
        slug := "c".toList, tags := [], published := true, views := 0,
        createdAt := 3 },
      { id := 4, userId := 1, title := "D".toList, excerpt := [], body := [],
        slug := "d".toList, tags := [], published := true, views := 0,
        createdAt := 4 },
      { id := 5, userId := 1, title := "E".toList, excerpt := [], body := [],
        slug := "e".toList, tags := [], published := true, views := 0,
        createdAt := 5 }],
    comments := [], likes := [] }

theorem C5_pagination_spec_witness :
    (findAll dbFive 2 10 none none).posts = [] ∧
    (findAll dbFive 2 10 none none).pagination.total = 5 ∧
    (findAll dbFive 2 10 none none).pagination.pages = 1 :=
  ⟨(C5_pagination_spec dbFive 2 10 none none (by decide)
      (by decide)).2.2.2.2.2 (by decide),
   by decide, by decide⟩

/-! ## Most-liked posts (Like.getMostLikedPosts, src/models/Like.js 133-171) -/

/-- The like count produced by `COUNT(DISTINCT l.id)` for a post, restricted
to the optional timeframe window (`l.created_at >= NOW() - INTERVAL ...`),
modelled as a cutoff timestamp: likes with `createdAt ≥ cutoff` count. -/
def windowLikesCount (db : DB) (cutoff : Option Nat) (p : PostRow) : Nat :=
  (db.likes.filter fun l => l.postId == p.id &&
    (match cutoff with
     | none => true
     | some c => decide (c ≤ l.createdAt))).length

/-- `ORDER BY likes_count DESC, p.created_at DESC` as a Boolean preorder. -/
def mostLikedLe (db : DB) (cutoff : Option Nat) (a b : PostRow) : Bool :=
  decide (windowLikesCount db cutoff b < windowLikesCount db cutoff a) ||
    (windowLikesCount db cutoff a == windowLikesCount db cutoff b &&
      decide (b.createdAt ≤ a.createdAt))

/-- `Like.getMostLikedPosts`: published posts with at least one like in the
window (`HAVING COUNT(DISTINCT l.id) > 0`, and the `WHERE` timeframe filter
excludes posts with no in-window likes), ordered by like count descending
with newest-first tie-break, truncated by `LIMIT`. -/
def getMostLikedPosts (db : DB) (cutoff : Option Nat) (limit : Nat) :
    List PostRow :=
  (sortBy (mostLikedLe db cutoff)
    (db.posts.filter fun p => p.published &&
      decide (0 < windowLikesCount db cutoff p))).take limit

theorem mostLikedLe_total (db : DB) (cutoff : Option Nat) :
    ∀ a b, mostLikedLe db cutoff a b = true ∨ mostLikedLe db cutoff b a = true := by
  intro a b
  unfold mostLikedLe
  rcases Nat.lt_trichotomy (windowLikesCount db cutoff a)
    (windowLikesCount db cutoff b) with h | h | h
  · right; simp [h]
  · rcases Nat.le_total a.createdAt b.createdAt with h2 | h2
    · right; simp [h, h2]
    · left; simp [h, h2]
  · left; simp [h]

theorem mostLikedLe_trans (db : DB) (cutoff : Option Nat) :
    ∀ a b c, mostLikedLe db cutoff a b = true →
      mostLikedLe db cutoff b c = true → mostLikedLe db cutoff a c = true := by
  intro a b c hab hbc
  unfold mostLikedLe at hab hbc ⊢
  simp only [Bool.or_eq_true, Bool.and_eq_true, decide_eq_true_eq,
    beq_iff_eq] at hab hbc ⊢
  omega

/-- C9: every post returned by the most-liked/trending query has like count
strictly greater than zero, and the returned list is ordered by like count
descending with creation timestamp (newest first) breaking ties; the
ordinary post listing is ordered newest first by creation timestamp. -/
theorem C9_ordering_spec (db : DB) (cutoff : Option Nat) (limit : Nat)
    (page plimit : Nat) (tags : Option (List (List Char)))
    (userId : Option Nat) :
    (∀ p ∈ getMostLikedPosts db cutoff limit,
      0 < windowLikesCount db cutoff p) ∧
    (getMostLikedPosts db cutoff limit).Pairwise (fun a b =>
      windowLikesCount db cutoff b < windowLikesCount db cutoff a ∨
      (windowLikesCount db cutoff a = windowLikesCount db cutoff b ∧
        b.createdAt ≤ a.createdAt)) ∧
    ((findAll db page plimit tags userId).posts).Pairwise
      (fun a b => b.createdAt ≤ a.createdAt) := by
  refine ⟨?_, ?_, ?_⟩
  · intro p hp
    have hp1 := List.mem_of_mem_take hp
    have hp2 := mem_sortBy.mp hp1
    have hp3 := (List.mem_filter.mp hp2).2
    rw [Bool.and_eq_true, decide_eq_true_eq] at hp3
    exact hp3.2
  · have hs := sortBy_sorted (mostLikedLe_total db cutoff)
      (mostLikedLe_trans db cutoff)
      (db.posts.filter fun p => p.published &&
        decide (0 < windowLikesCount db cutoff p))
    have hs' := hs.sublist (List.take_sublist limit _)
    refine hs'.imp ?_
    intro a b h
    unfold mostLikedLe at h
    simp only [Bool.or_eq_true, Bool.and_eq_true, decide_eq_true_eq,
      beq_iff_eq] at h
    exact h
  · have htotal : ∀ a b : PostRow,
        createdDescLe a b = true ∨ createdDescLe b a = true := by
      intro a b
      unfold createdDescLe
      rcases Nat.le_total a.createdAt b.createdAt with h | h
      · right; simp [h]
      · left; simp [h]
    have htrans : ∀ a b c : PostRow, createdDescLe a b = true →
        createdDescLe b c = true → createdDescLe a c = true := by
      intro a b c hab hbc
      unfold createdDescLe at hab hbc ⊢
      simp only [decide_eq_true_eq] at hab hbc ⊢
      omega
    have hs := sortBy_sorted htotal htrans
      (db.posts.filter (findAllPred tags userId))
    have hsub : (((sortBy createdDescLe
        (db.posts.filter (findAllPred tags userId))).drop
          ((page - 1) * plimit)).take plimit).Sublist
        (sortBy createdDescLe (db.posts.filter (findAllPred tags userId))) :=
      (List.take_sublist _ _).trans (List.drop_sublist _ _)
    have hs' := hs.sublist hsub
    refine hs'.imp ?_
    intro a b h
    unfold createdDescLe at h
    simpa using h

def dbTrend : DB :=
  { users := [],
    posts := [
      { id := 1, userId := 1, title := "A".toList, excerpt := [], body := [],
        slug := "a".toList, tags := [], published := true, views := 0,
        createdAt := 1 },
      { id := 2, userId := 1, title := "B".toList, excerpt := [], body := [],
        slug := "b".toList, tags := [], published := true, views := 0,
        createdAt := 2 }],
    comments := [],
    likes := [
      { id := 1, postId := 1, userId := 3, createdAt := 5 },
      { id := 2, postId := 1, userId := 4, createdAt := 6 },
      { id := 3, postId := 2, userId := 3, createdAt := 7 }] }

theorem C9_ordering_spec_witness :
    0 < windowLikesCount dbTrend none
      { id := 1, userId := 1, title := "A".toList, excerpt := [], body := [],
        slug := "a".toList, tags := [], published := true, views := 0,
        createdAt := 1 } :=
  (C9_ordering_spec dbTrend none 10 1 10 none none).1 _ (by decide)

/-! ## Search (Post.search, lines 308-348; getPosts, postController 68-110)

`Post.search` interpolates the raw search term into an `ILIKE` pattern
(`'%' + term + '%'`), so the SQL wildcard characters `%` and `_` (and the
escape `\`) inside the term keep their pattern meaning.  `likeMatch` models
Postgres `ILIKE` semantics: `%` matches any sequence, `_` any single
character, `\` escapes the following pattern character, and comparison is
case-insensitive; a trailing lone `\` matches nothing. -/

/-- Try `f` on every suffix of the text (the `%` wildcard). -/
def tryTails (f : List Char → Bool) : List Char → Bool
  | [] => f []
  | d :: ts => f (d :: ts) || tryTails f ts

/-- Match one literal pattern character case-insensitively, then continue. -/
def matchChar (x : Char) (f : List Char → Bool) : List Char → Bool
  | [] => false
  | d :: ts => (Char.toLower x == Char.toLower d) && f ts

/-- Match any single character (the `_` wildcard), then continue. -/
def matchOne (f : List Char → Bool) : List Char → Bool
  | [] => false
  | _ :: ts => f ts

def likeMatch : List Char → List Char → Bool
  | [] => fun t => t.isEmpty
  | p :: ps =>
    if p = '%' then tryTails (likeMatch ps)
    else if p = '_' then matchOne (likeMatch ps)
    else if p = '\\' then
      match ps with
      | [] => fun _ => false
      | c :: ps2 => matchChar c (likeMatch ps2)
    else matchChar p (likeMatch ps)

/-- The `%term%` pattern built by `Post.search` (unescaped interpolation). -/
def searchPattern (term : List Char) : List Char := '%' :: term ++ ['%']

/-- Lowercasing of a string, as `ILIKE` compares. -/
def lowerStr (l : List Char) : List Char := l.map Char.toLower

/-- The term contains no SQL LIKE wildcard (`%`, `_`) or escape (`\`). -/
def noWildcards (term : List Char) : Bool :=
  term.all fun c => !(c == '%') && !(c == '_') && !(c == '\\')

/-- Row predicate of `Post.search`: `p.published = true AND (p.title ILIKE
$1 OR p.excerpt ILIKE $1 OR p.body ILIKE $1)` with `$1 = '%'+term+'%'`. -/
def searchPred (term : List Char) (p : PostRow) : Bool :=
  p.published &&
    (likeMatch (searchPattern term) p.title ||
     likeMatch (searchPattern term) p.excerpt ||
     likeMatch (searchPattern term) p.body)

/-- `Post.search` (src/models/Post.js lines 308-348). -/
def postSearch (db : DB) (term : List Char) (page limit : Nat) : PagedPosts :=
  let matching := db.posts.filter (searchPred term)
  { posts := ((sortBy createdDescLe matching).drop ((page - 1) * limit)).take
      limit,
    pagination :=
      { page := page, limit := limit, total := matching.length,
        pages := jsCeilDiv matching.length limit } }

/-- `getPosts` (src/controllers/postController.js lines 68-110): clamp page
and limit, then search mode when a truthy (non-empty) search term is
present (tag/author filters unused there), otherwise filter mode. -/
def getPosts (db : DB) (page limit : Nat) (tags : Option (List (List Char)))
    (author : Option Nat) (search : Option (List Char)) : PagedPosts :=
  let pageNum := max 1 page
  let limitNum := min 50 (max 1 limit)
  match search with
  | some s =>
    if s.isEmpty then findAll db pageNum limitNum tags author
    else postSearch db s pageNum limitNum
  | none => findAll db pageNum limitNum tags author

theorem tryTails_spec (f : List Char → Bool) :
    ∀ t, tryTails f t = true ↔ ∃ t1 t2, t = t1 ++ t2 ∧ f t2 = true
  | [] => by
    constructor
    · intro h; exact ⟨[], [], rfl, h⟩
    · rintro ⟨t1, t2, heq, hm⟩
      obtain ⟨rfl, rfl⟩ := List.append_eq_nil.mp heq.symm
      exact hm
  | d :: ts => by
    rw [tryTails]
    constructor
    · intro h
      rw [Bool.or_eq_true] at h
      rcases h with h | h
      · exact ⟨[], d :: ts, rfl, h⟩
      · obtain ⟨t1, t2, heq, hm⟩ := (tryTails_spec f ts).mp h
        exact ⟨d :: t1, t2, by rw [heq, List.cons_append], hm⟩
    · rintro ⟨t1, t2, heq, hm⟩
      rw [Bool.or_eq_true]
      cases t1 with
      | nil =>
        left
        rw [List.nil_append] at heq
        rw [← heq] at hm
        exact hm
      | cons e t1s =>
        right
        rw [List.cons_append, List.cons.injEq] at heq
        exact (tryTails_spec f ts).mpr ⟨t1s, t2, heq.2, hm⟩

theorem likeMatch_pct_cons (ps t : List Char) :
    likeMatch ('%' :: ps) t = tryTails (likeMatch ps) t := by
  rw [likeMatch.eq_def]
  dsimp only
  rw [if_pos rfl]

theorem likeMatch_pct_nil (t : List Char) : likeMatch ['%'] t = true := by
  rw [likeMatch.eq_def]
  dsimp only
  rw [if_pos rfl]
  exact (tryTails_spec _ t).mpr ⟨t, [], by simp, rfl⟩

/-- For a wildcard-free `ps`, the pattern `ps ++ ['%']` matches exactly the
texts beginning with a case-insensitive copy of `ps`. -/
theorem likeMatch_literal :
    ∀ ps : List Char, noWildcards ps = true → ∀ t : List Char,
      (likeMatch (ps ++ ['%']) t = true ↔
        ∃ t1 t2, t = t1 ++ t2 ∧ lowerStr t1 = lowerStr ps)
  | [], _, t => by
    rw [List.nil_append]
    constructor
    · intro _; exact ⟨[], t, rfl, rfl⟩
    · intro _; exact likeMatch_pct_nil t
  | c :: cs, hps, t => by
    have hparts : (!(c == '%') && !(c == '_') && !(c == '\\')) = true ∧
        noWildcards cs = true := by
      rw [noWildcards, List.all_cons, Bool.and_eq_true] at hps
      exact ⟨hps.1, hps.2⟩
    have hcp : ¬ (c = '%') := by
      intro h; subst h; simp at hparts
    have hcu : ¬ (c = '_') := by
      intro h; subst h; simp at hparts
    have hcb : ¬ (c = '\\') := by
      intro h; subst h; simp at hparts
    rw [List.cons_append, likeMatch.eq_def]
    dsimp only
    rw [if_neg hcp, if_neg hcu, if_neg hcb]
    cases t with
    | nil =>
      rw [matchChar]
      constructor
      · intro h; exact absurd h (by simp)
      · rintro ⟨t1, t2, heq, hlow⟩
        obtain ⟨rfl, rfl⟩ := List.append_eq_nil.mp heq.symm
        have hlen := congrArg List.length hlow
        simp [lowerStr] at hlen
    | cons d ts =>
      rw [matchChar, Bool.and_eq_true, beq_iff_eq]
      constructor
      · rintro ⟨hcd, hm⟩
        obtain ⟨t1, t2, hts, hlow⟩ :=
          (likeMatch_literal cs hparts.2 ts).mp hm
        refine ⟨d :: t1, t2, by rw [hts, List.cons_append], ?_⟩
        show Char.toLower d :: lowerStr t1 = Char.toLower c :: lowerStr cs
        rw [hlow, hcd]
      · rintro ⟨t1, t2, heq, hlow⟩
        cases t1 with
        | nil =>
          exfalso
          have hlen := congrArg List.length hlow
          simp [lowerStr] at hlen
        | cons e t1s =>
          rw [List.cons_append, List.cons.injEq] at heq
          obtain ⟨hde, hts⟩ := heq
          have hlow' : Char.toLower e :: lowerStr t1s =
              Char.toLower c :: lowerStr cs := hlow
          rw [List.cons.injEq] at hlow'
          subst hde
          exact ⟨hlow'.1.symm,
            (likeMatch_literal cs hparts.2 ts).mpr ⟨t1s, t2, hts, hlow'.2⟩⟩

/-- For a wildcard-free term, `ILIKE '%term%'` is exactly the
case-insensitive-substring criterion. -/
theorem likeMatch_contains {term : List Char} (hw : noWildcards term = true)
    (text : List Char) :
    likeMatch (searchPattern term) text = true ↔
      ∃ s t, lowerStr text = s ++ lowerStr term ++ t := by
  rw [searchPattern, List.cons_append, likeMatch_pct_cons, tryTails_spec]
  constructor
  · rintro ⟨t1, t2, rfl, hm⟩
    obtain ⟨u1, u2, rfl, hlow⟩ := (likeMatch_literal term hw t2).mp hm
    refine ⟨lowerStr t1, lowerStr u2, ?_⟩
    show (t1 ++ (u1 ++ u2)).map Char.toLower = _
    rw [List.map_append, List.map_append]
    rw [show u1.map Char.toLower = lowerStr u1 from rfl, hlow]
    simp [lowerStr, List.append_assoc]
  · rintro ⟨s, t, hsplit⟩
    rw [show lowerStr text = text.map Char.toLower from rfl] at hsplit
    rw [List.append_assoc, List.map_eq_append_iff] at hsplit
    obtain ⟨a, rest, rfl, hmapa, hmaprest⟩ := hsplit
    rw [List.map_eq_append_iff] at hmaprest
    obtain ⟨b, c2, rfl, hmapb, hmapc⟩ := hmaprest
    exact ⟨a, b ++ c2, rfl,
      (likeMatch_literal term hw (b ++ c2)).mpr ⟨b, c2, rfl, hmapb⟩⟩

/-- Executable case-insensitive substring check (used to decide concrete
instances of the substring criterion). -/
def containsCIb (needle hay : List Char) : Bool :=
  (List.range (hay.length + 1)).any fun i =>
    ((lowerStr hay).drop i).take (lowerStr needle).length == lowerStr needle

theorem containsCIb_iff (needle hay : List Char) :
    containsCIb needle hay = true ↔
      ∃ s t, lowerStr hay = s ++ lowerStr needle ++ t := by
  unfold containsCIb
  rw [List.any_eq_true]
  constructor
  · rintro ⟨i, _, htake⟩
    rw [beq_iff_eq] at htake
    refine ⟨(lowerStr hay).take i,
      ((lowerStr hay).drop i).drop (lowerStr needle).length, ?_⟩
    conv_lhs => rw [← List.take_append_drop i (lowerStr hay),
      ← List.take_append_drop (lowerStr needle).length ((lowerStr hay).drop i),
      htake]
    rw [List.append_assoc]
  · rintro ⟨s, t, hsplit⟩
    refine ⟨s.length, ?_, ?_⟩
    · rw [List.mem_range]
      have hlen := congrArg List.length hsplit
      simp only [lowerStr, List.length_map, List.length_append] at hlen
      omega
    · rw [beq_iff_eq, hsplit, List.append_assoc, List.drop_left,
        List.take_left]

/-- C8 (amended): when a non-empty search term is present the tag/author
filters are ignored and the matched set is exactly the published posts with
an `ILIKE '%term%'` match on title, excerpt or body; when the term contains
no SQL LIKE wildcard or escape characters (`%`, `_`, `\`) this criterion is
exactly the case-insensitive-substring criterion of the claim (a term with
wildcards is interpreted as a pattern instead); with no search term the tag
(overlap) and author (exact id) filters of `findAll` apply. -/
theorem C8_search_modes_spec (db : DB) (page limit : Nat)
    (tags : Option (List (List Char))) (author : Option Nat)
    (term : List Char) (hterm : term ≠ []) :
    (getPosts db page limit tags author (some term) =
      postSearch db term (max 1 page) (min 50 (max 1 limit))) ∧
    (getPosts db page limit tags author (some term) =
      getPosts db page limit none none (some term)) ∧
    ((getPosts db page limit tags author (some term)).pagination.total =
      (db.posts.filter (searchPred term)).length) ∧
    (noWildcards term = true →
      ∀ p : PostRow, searchPred term p = true ↔
        (p.published = true ∧
          ((∃ s t, lowerStr p.title = s ++ lowerStr term ++ t) ∨
           (∃ s t, lowerStr p.excerpt = s ++ lowerStr term ++ t) ∨
           (∃ s t, lowerStr p.body = s ++ lowerStr term ++ t)))) ∧
    (getPosts db page limit tags author none =
      findAll db (max 1 page) (min 50 (max 1 limit)) tags author) := by
  have hne : term.isEmpty = false := by
    cases term with
    | nil => exact absurd rfl hterm
    | cons c cs => rfl
  refine ⟨?_, ?_, ?_, ?_, rfl⟩
  · simp only [getPosts, hne, Bool.false_eq_true, if_false]
  · simp only [getPosts, hne, Bool.false_eq_true, if_false]
  · simp only [getPosts, hne, Bool.false_eq_true, if_false]
    rfl
  · intro hw p
    unfold searchPred
    rw [Bool.and_eq_true, Bool.or_eq_true, Bool.or_eq_true]
    rw [likeMatch_contains hw p.title, likeMatch_contains hw p.excerpt,
      likeMatch_contains hw p.body, or_assoc]

def dbSearch : DB :=
  { users := [],
    posts := [
      { id := 1, userId := 1, title := "abc".toList, excerpt := "zzz".toList,
        body := "zzzzzzzzzz".toList, slug := "abc".toList, tags := [],
        published := true, views := 0, createdAt := 1 }],
    comments := [], likes := [] }

/-- C8 counterexample to the claim as stated: for the search term `a_c` the
only stored post (title `abc`) is returned by the search (the `_` acts as a
single-character SQL wildcard inside the unescaped `ILIKE` pattern), yet
`a_c` is not a case-insensitive substring of its title, excerpt or body, so
the result set is not the set the claim describes. -/
theorem C8_search_substring_counterexample :
    (getPosts dbSearch 1 10 none none (some "a_c".toList)).pagination.total
      = 1 ∧
    (¬ ∃ s t, lowerStr "abc".toList = s ++ lowerStr "a_c".toList ++ t) ∧
    (¬ ∃ s t, lowerStr "zzz".toList = s ++ lowerStr "a_c".toList ++ t) ∧
    (¬ ∃ s t,
      lowerStr "zzzzzzzzzz".toList = s ++ lowerStr "a_c".toList ++ t) :=
  ⟨by decide,
   fun h => absurd ((containsCIb_iff "a_c".toList "abc".toList).mpr h)
     (by decide),
   fun h => absurd ((containsCIb_iff "a_c".toList "zzz".toList).mpr h)
     (by decide),
   fun h => absurd ((containsCIb_iff "a_c".toList "zzzzzzzzzz".toList).mpr h)
     (by decide)⟩

theorem C8_search_modes_spec_witness :
    getPosts dbSearch 3 10 (some ["news".toList]) (some 9)
      (some "hello".toList) = postSearch dbSearch "hello".toList 3 10 :=
  (C8_search_modes_spec dbSearch 3 10 (some ["news".toList]) (some 9)
    "hello".toList (by decide)).1

/-! ## Fetch by id or slug (Post.findById lines 125-150, Post.findBySlug
lines 153-178, getPost, postController lines 113-139) -/

/-- `Post.findById`: `WHERE p.id = $1` — no published filter. -/
def findById (db : DB) (id : Nat) : Option PostRow :=
  db.posts.find? fun p => p.id == id

/-- `Post.findBySlug`: `WHERE p.slug = $1 AND p.published = true`. -/
def findBySlug (db : DB) (slug : List Char) : Option PostRow :=
  db.posts.find? fun p => p.slug == slug && p.published

/-- The `/^\d+$/` identifier test of `getPost`. -/
def isAllDigits (l : List Char) : Bool := !l.isEmpty && l.all isDigitChar

/-- `getPost` (postController lines 113-139): an all-digit identifier is
looked up as a numeric id (`parseInt`), anything else as a slug; `none`
models the 404 response. -/
def getPostLookup (db : DB) (ident : List Char) : Option PostRow :=
  if isAllDigits ident then findById db (decToNat ident)
  else findBySlug db ident

theorem isAllDigits_natToDec (n : Nat) : isAllDigits (natToDec n) = true := by
  unfold isAllDigits
  rw [Bool.and_eq_true]
  constructor
  · rcases h : natToDec n with _ | ⟨c, cs⟩
    · exact absurd h (natToDec_ne_nil n)
    · rfl
  · rw [List.all_eq_true]
    exact fun c hc => natToDecGo_all_digits (n + 1) n c hc

/-- C10 (amended): `findById` returns the post regardless of its published
flag, `findBySlug` returns only published posts; hence every unpublished
post whose slug is not all-digits (an all-digit identifier is routed to the
id branch) is reachable through its decimal id but yields 404 through its
slug, under the data model's slug-uniqueness invariant. -/
theorem C10_id_vs_slug_spec (db : DB) (p : PostRow) (hp : p ∈ db.posts)
    (hunpub : p.published = false)
    (hnd : isAllDigits p.slug = false)
    (hslug : ∀ q ∈ db.posts, q.slug = p.slug → q = p) :
    (getPostLookup db (natToDec p.id)).isSome = true ∧
    (∀ q, getPostLookup db (natToDec p.id) = some q → q.id = p.id) ∧
    getPostLookup db p.slug = none ∧
    findBySlug db p.slug = none ∧
    (∀ s q, findBySlug db s = some q → q.published = true) := by
  have hid : getPostLookup db (natToDec p.id) = findById db p.id := by
    unfold getPostLookup
    rw [if_pos (isAllDigits_natToDec p.id), decToNat_natToDec]
  have hbyslug : findBySlug db p.slug = none := by
    unfold findBySlug
    rw [List.find?_eq_none]
    intro q hq hcon
    rw [Bool.and_eq_true, beq_iff_eq] at hcon
    have hqp : q = p := hslug q hq hcon.1
    rw [hqp, hunpub] at hcon
    exact absurd hcon.2 (by simp)
  refine ⟨?_, ?_, ?_, hbyslug, ?_⟩
  · rw [hid]
    unfold findById
    rw [List.find?_isSome]
    exact ⟨p, hp, by simp⟩
  · intro q hq
    rw [hid] at hq
    have hpq := List.find?_some hq
    simpa using hpq
  · unfold getPostLookup
    rw [if_neg]
    · exact hbyslug
    · rw [hnd]
      simp
  · intro s q hq
    have hpq := List.find?_some hq
    rw [Bool.and_eq_true] at hpq
    exact hpq.2

def dbShadow : DB :=
  { users := [],
    posts := [
      { id := 1, userId := 1, title := "One".toList, excerpt := [],
        body := [], slug := "2".toList, tags := [], published := false,
        views := 0, createdAt := 1 },
      { id := 2, userId := 1, title := "Two".toList, excerpt := [],
        body := [], slug := "two".toList, tags := [], published := true,
        views := 0, createdAt := 2 }],
    comments := [], likes := [] }

/-- C10 counterexample to the claim as stated: post 1 is unpublished with
the all-digit slug `"2"`; a get-by-identifier request with that slug is
routed to the numeric-id branch and successfully returns (published) post 2
instead of failing with 404 as the claim asserts for every unpublished
post. -/
theorem C10_get_by_slug_counterexample :
    ∃ p ∈ dbShadow.posts, p.published = false ∧ p.id = 1 ∧
      (getPostLookup dbShadow p.slug).map (fun q => q.id) = some 2 := by
  decide

def postDraft : PostRow :=
  { id := 3, userId := 1, title := "Draft".toList, excerpt := [], body := [],
    slug := "draft".toList, tags := [], published := false, views := 0,
    createdAt := 1 }

def dbDraft : DB :=
  { users := [], posts := [postDraft], comments := [], likes := [] }

theorem C10_id_vs_slug_spec_witness :
    (getPostLookup dbDraft (natToDec 3)).isSome = true ∧
    getPostLookup dbDraft "draft".toList = none :=
  ⟨(C10_id_vs_slug_spec dbDraft postDraft (by decide) (by decide) (by decide)
      (by decide)).1,
   (C10_id_vs_slug_spec dbDraft postDraft (by decide) (by decide) (by decide)
      (by decide)).2.2.1⟩
